import Mathlib

/-
Verification of the llfs Volume append pipeline, PageRecycler batch protocol
and PackedLogDeviceConfig layout, as a shallow embedding of
src/llfs/volume.cpp, src/llfs/page_recycler.cpp and
src/llfs/log_device_config.hpp.

Slot offsets are modelled as natural numbers (the 64-bit space with modular
slot order is used by the source only for wraparound tolerance; all claims
here concern runs far from wraparound, where slot order coincides with the
order on Nat).  Grants are modelled by their remaining byte count.  Fallible
external collaborators (the log device, the page deleter, the sequencer) are
modelled by environment records that fix the outcome of each call, and each
operation returns the trace of externally visible events it performed, so
that ordering claims become statements about traces.
-/

namespace Llfs

/-- Half-open range of slot offsets assigned to one appended slot. -/
structure SlotRange where
  lower_bound : Nat
  upper_bound : Nat
deriving DecidableEq, Repr

/-- Minimum of two slot offsets (slot_min of the source, on Nat offsets). -/
def slot_min (a b : Nat) : Nat := min a b

/-- Maximum of two slot offsets (slot_max of the source, on Nat offsets). -/
def slot_max (a b : Nat) : Nat := max a b

/-- Raise an optional slot lower bound to at least the given offset, as the
clamp_min_slot helper used by recycle_pages and prepare_batch does. -/
def clamp_min_slot : Option Nat → Nat → Option Nat
  | none, s => some s
  | some v, s => some (slot_max v s)

/-- Semantic error categories of the model.  checkFailed stands for a failed
BATT_CHECK (a process abort in the source); ubEmptyOptional stands for the
undefined behavior of dereferencing an empty Optional. -/
inductive Status where
  | ok
  | cancelled
  | recyclerStopped
  | noSpace
  | ioError
  | checkFailed
  | ubEmptyOptional
deriving DecidableEq, Repr

/-! ## Volume append pipeline (src/llfs/volume.cpp, Volume::append) -/

/-- Externally visible events of one Volume::append(job, grant, sequencer)
call, in the order they are performed. -/
inductive VolEvent where
  | appendPrepare (r : SlotRange)
  | seqSetError
  | seqSetCurrent (r : SlotRange)
  | syncSpeculative (upper : Nat)
  | syncDurable (upper : Nat)
  | commitJob (caller_slot : Nat)
  | appendCommit (r : SlotRange) (prepare_slot : Nat)
deriving DecidableEq, Repr

/-- Environment of one Volume::append call: packed sizes of the two slots and
the outcome of every fallible external step. -/
structure VolAppendEnv where
  prepareSize : Nat
  commitSize : Nat
  awaitPrev : Except Status SlotRange
  syncPrevOk : Bool
  appendPrepareOk : Bool
  syncPrepareOk : Bool
  commitJobOk : Bool
  appendCommitOk : Bool

/-- Result of one Volume::append call: the event trace, the returned value,
and the remaining grant bytes and slot offset of the writer. -/
structure VolAppendOut where
  trace : List VolEvent
  result : Except Status SlotRange
  grantAfter : Nat
  offAfter : Nat

/-- Phases 1, 2a and 2b of Volume::append: append the PrepareJob slot
(resolving the sequencer either way), durably sync it, commit the job against
the PageCache, then append the PackedCommitJob slot with the same grant and
return the combined range. -/
def Volume.appendJobPhase1 (env : VolAppendEnv) (hasSeq : Bool) (tr0 : List VolEvent)
    (grant off : Nat) : VolAppendOut :=
  if env.appendPrepareOk ∧ env.prepareSize ≤ grant then
    let p : SlotRange := { lower_bound := off, upper_bound := off + env.prepareSize }
    let g1 := grant - env.prepareSize
    let off1 := off + env.prepareSize
    let tr1 := tr0 ++ [VolEvent.appendPrepare p] ++
      (if hasSeq then [VolEvent.seqSetCurrent p] else [])
    if env.syncPrepareOk then
      let tr3 := tr1 ++ [VolEvent.syncDurable p.upper_bound, VolEvent.commitJob p.lower_bound]
      if env.commitJobOk then
        if env.appendCommitOk ∧ env.commitSize ≤ g1 then
          let c : SlotRange := { lower_bound := off1, upper_bound := off1 + env.commitSize }
          { trace := tr3 ++ [VolEvent.appendCommit c p.lower_bound],
            result := Except.ok { lower_bound := p.lower_bound, upper_bound := c.upper_bound },
            grantAfter := g1 - env.commitSize, offAfter := off1 + env.commitSize }
        else
          { trace := tr3, result := Except.error Status.noSpace,
            grantAfter := g1, offAfter := off1 }
      else
        { trace := tr3, result := Except.error Status.ioError,
          grantAfter := g1, offAfter := off1 }
    else
      { trace := tr1, result := Except.error Status.ioError,
        grantAfter := g1, offAfter := off1 }
  else
    { trace := tr0 ++ (if hasSeq then [VolEvent.seqSetError] else []),
      result := Except.error Status.noSpace, grantAfter := grant, offAfter := off }

/-- Volume::append(AppendableJob, grant, sequencer): phase 0 awaits the
previous slot of the sequence and speculatively syncs up to its upper bound,
resolving the sequencer with set_error on any phase 0 failure; then the
prepare/commit protocol of appendJobPhase1 runs. -/
def Volume.appendJob (env : VolAppendEnv) (hasSeq : Bool) (grant off : Nat) : VolAppendOut :=
  match hasSeq, env.awaitPrev with
  | true, Except.error e =>
      { trace := [VolEvent.seqSetError], result := Except.error e,
        grantAfter := grant, offAfter := off }
  | true, Except.ok prev =>
      if env.syncPrevOk then
        Volume.appendJobPhase1 env true [VolEvent.syncSpeculative prev.upper_bound] grant off
      else
        { trace := [VolEvent.seqSetError], result := Except.error Status.ioError,
          grantAfter := grant, offAfter := off }
  | false, _ =>
      Volume.appendJobPhase1 env false [] grant off

/-- Test for the two sequencer resolution events. -/
def isSeqResolution : VolEvent → Bool
  | VolEvent.seqSetError => true
  | VolEvent.seqSetCurrent _ => true
  | _ => false

/-! ## Volume::trim (src/llfs/volume.cpp) -/

/-- Slot range held by the trim lock of a Volume. -/
structure TrimLock where
  lower_bound : Nat
  upper_bound : Nat
deriving DecidableEq, Repr

/-- Volume::trim raises the trim lock lower bound to slot_max of its old
value and the requested one, then updates the lock.  Modelled from the spec:
SlotLockManager::update_lock (outside the provided sources) advances the
held lock to the narrowed range and returns OK. -/
def Volume.trim (lock : TrimLock) (slot_lower_bound : Nat) : Status × TrimLock :=
  (Status.ok, { lock with lower_bound := slot_max lock.lower_bound slot_lower_bound })

/-! ## PackedLogDeviceConfig (src/llfs/log_device_config.hpp) -/

/-- Modelled from the spec: PackedConfigSlot::kSize, the fixed byte size of a
packed config slot (packed_config.hpp is not among the provided sources; the
spec states the slot is fixed at 64 bytes). -/
def PackedConfigSlot.kSize : Nat := 64

/-- Modelled from the spec: kKiB from constants.hpp, 1024 bytes. -/
def kKiB : Nat := 1024

/-- Fields of PackedLogDeviceConfig.  Multi-byte integers are stored
little-endian (little_u32 and friends); pad and uuid fields are raw bytes. -/
structure PackedLogDeviceConfig where
  tag : Nat
  pad0_ : Fin 2 → Nat
  pages_per_block_log2 : Nat
  block_0_offset : Int
  physical_size : Nat
  logical_size : Nat
  uuid : Fin 16 → Nat
  pad1_ : Fin 16 → Nat

/-- Little-endian byte encoding of a natural number in w bytes. -/
def leBytes (w v : Nat) : List Nat :=
  (List.range w).map (fun i => v / 256 ^ i % 256)

/-- Little-endian two-complement byte encoding of an integer in w bytes. -/
def leBytesInt (w : Nat) (v : Int) : List Nat :=
  leBytes w (v.emod (2 ^ (8 * w))).toNat

/-- Serialized layout of PackedLogDeviceConfig: the fields in declaration
order, each little-endian. -/
def PackedLogDeviceConfig.toBytes (c : PackedLogDeviceConfig) : List Nat :=
  leBytes 4 c.tag ++
  (List.ofFn c.pad0_).map (· % 256) ++
  leBytes 2 c.pages_per_block_log2 ++
  leBytesInt 8 c.block_0_offset ++
  leBytes 8 c.physical_size ++
  leBytes 8 c.logical_size ++
  (List.ofFn c.uuid).map (· % 256) ++
  (List.ofFn c.pad1_).map (· % 256)

/-- PackedLogDeviceConfig::pages_per_block(): 1 shifted left by
pages_per_block_log2. -/
def PackedLogDeviceConfig.pages_per_block (c : PackedLogDeviceConfig) : Nat :=
  1 <<< c.pages_per_block_log2

/-- PackedLogDeviceConfig::block_size(): 4 KiB times pages_per_block. -/
def PackedLogDeviceConfig.block_size (c : PackedLogDeviceConfig) : Nat :=
  4 * kKiB * c.pages_per_block

/-! ## PageRecycler (src/llfs/page_recycler.cpp) -/

/-- Page scheduled for recycling: page id, slot at which it was recorded, and
cascade depth. -/
structure PageToRecycle where
  page_id : Nat
  slot_offset : Nat
  depth : Nat
deriving DecidableEq, Repr

/-- Modelled from the spec: kMaxPageRefDepth, the bound on cascade depth
(constants.hpp is not among the provided sources; the claims do not depend on
its value, only on it being positive). -/
def kMaxPageRefDepth : Nat := 32

/-- Modelled from the spec: RecyclerState, the in-memory structure of pending
PageToRecycle items keyed by page id (page_recycler.hpp and the State class
are not among the provided sources).  The pending list is kept in insertion
order; each page id occurs at most once. -/
structure RecyclerState where
  pending : List PageToRecycle
deriving DecidableEq, Repr

/-- Modelled from the spec: RecyclerState::insert.  A page id not yet pending
is inserted and returned as the single item to append; a page id pending with
depth at least the new depth is an idempotent no-op returning the empty list;
a page id pending at a smaller depth is updated to the deeper level and
returned so that a new WAL record is written. -/
def RecyclerState.insert (s : RecyclerState) (item : PageToRecycle) :
    List PageToRecycle × RecyclerState :=
  match s.pending.find? (fun q => q.page_id == item.page_id) with
  | some q =>
      if item.depth ≤ q.depth then
        ([], s)
      else
        ([item],
         { pending := s.pending.map (fun r => if r.page_id == item.page_id then item else r) })
  | none => ([item], { pending := s.pending ++ [item] })

/-- Greatest depth among a list of pending items (0 when empty). -/
def maxDepthOf : List PageToRecycle → Nat
  | [] => 0
  | q :: rest => max q.depth (maxDepthOf rest)

/-- Modelled from the spec: RecyclerState::collect_batch removes and returns
up to max_size items from the highest non-empty depth group; within the group
items stay in insertion order, which follows the recorded slot order. -/
def RecyclerState.collect_batch (s : RecyclerState) (max_size : Nat) :
    List PageToRecycle × RecyclerState :=
  match s.pending with
  | [] => ([], s)
  | _ :: _ =>
      let dmax := maxDepthOf s.pending
      let group := s.pending.filter (fun q => q.depth == dmax)
      let taken := group.take max_size
      let keep := s.pending.filter (fun q => !(taken.any (fun t => t.page_id == q.page_id)))
      (taken, { pending := keep })

/-- Modelled from the spec: RecyclerState::get_lru_slot, the smallest
slot_offset of any pending item. -/
def RecyclerState.get_lru_slot (s : RecyclerState) : Option Nat :=
  match s.pending with
  | [] => none
  | q :: rest => some (rest.foldl (fun a r => slot_min a r.slot_offset) q.slot_offset)

/-- Externally visible events of the recycler, in program order. -/
inductive RecEvent where
  | appendInsertSlot (r : SlotRange) (item : PageToRecycle)
  | appendPrepareSlot (r : SlotRange) (page_id : Nat) (batch_slot : Nat)
  | appendBatchCommit (r : SlotRange) (batch_slot : Nat)
  | appendInfoSlot (r : SlotRange)
  | flushDurable (upper : Nat)
  | deletePages (batch_slot : Nat) (page_ids : List Nat)
  | trimTo (slot : Nat)
deriving DecidableEq, Repr

/-- Environment of the recycler model: packed slot sizes, option-derived
sizes, and the outcome of each fallible external step. -/
structure RecEnv where
  insertSlotSize : Nat
  prepareSlotSize : Nat
  commitSlotSize : Nat
  infoSlotSize : Nat
  insert_grant_size : Nat
  appendOk : Bool
  flushOk : Bool
  deleteOk : Bool
  stop_requested : Bool
  info_needs_refresh : Bool

/-- Mutable members of the PageRecycler that the modelled operations read and
write: the slot writer offset, the durable upper bound of the WAL device, the
recycler state, the two grants, and the two tracking slots. -/
structure RecyclerSim where
  off : Nat
  durable_upper : Nat
  state : RecyclerState
  insert_grant_pool : Nat
  recycle_task_grant : Nat
  latest_batch_upper_bound : Option Nat
  latest_info_slot : Nat
deriving Repr

/-- Batch of pages processed together; slot_offset is the batch identity. -/
structure Batch where
  to_recycle : List PageToRecycle
  slot_offset : Nat
deriving DecidableEq, Repr

/-- Append loop of PageRecycler::insert_to_log: write one slot per item the
state returned, consuming the grant, and track the greatest upper bound. -/
def appendItems (env : RecEnv) (m : RecyclerSim) (grant last_slot : Nat) :
    List PageToRecycle → Except Status Nat × RecyclerSim × Nat × List RecEvent
  | [] => (Except.ok last_slot, m, grant, [])
  | item :: rest =>
      if env.appendOk ∧ env.insertSlotSize ≤ grant then
        let r : SlotRange := { lower_bound := m.off, upper_bound := m.off + env.insertSlotSize }
        let m2 := { m with off := r.upper_bound }
        let out := appendItems env m2 (grant - env.insertSlotSize)
          (slot_max last_slot r.upper_bound) rest
        (out.1, out.2.1, out.2.2.1, RecEvent.appendInsertSlot r item :: out.2.2.2)
      else
        (Except.error Status.noSpace, m, grant, [])

/-- PageRecycler::insert_to_log: under the state lock, insert the item at the
current slot offset; an idempotent no-op returns the current slot offset with
nothing appended and the grant untouched; otherwise the returned items are
appended and the greatest upper bound is returned. -/
def PageRecycler.insert_to_log (env : RecEnv) (m : RecyclerSim) (grant page_id depth : Nat) :
    Except Status Nat × RecyclerSim × Nat × List RecEvent :=
  let current_slot := m.off
  let ins := m.state.insert
    { page_id := page_id, slot_offset := current_slot, depth := depth }
  if ins.1 = [] then
    (Except.ok current_slot, { m with state := ins.2 }, grant, [])
  else
    appendItems env { m with state := ins.2 } grant current_slot ins.1

/-- Loop of PageRecycler::recycle_pages when the caller passed no grant: for
each page spend insert_grant_size from the insert grant pool (its unused
remainder returns to the pool when the local grant is dropped), then
insert_to_log at depth 0, clamping the returned sync point upward. -/
def PageRecycler.recycle_pages_pool (env : RecEnv) (m : RecyclerSim) (sync_point : Option Nat) :
    List Nat → Except Status Nat × RecyclerSim × List RecEvent
  | [] =>
      match sync_point with
      | some sp => (Except.ok sp, m, [])
      | none => (Except.error Status.checkFailed, m, [])
  | pid :: rest =>
      if env.insert_grant_size ≤ m.insert_grant_pool then
        let m1 := { m with insert_grant_pool := m.insert_grant_pool - env.insert_grant_size }
        let step := PageRecycler.insert_to_log env m1 env.insert_grant_size pid 0
        match step.1 with
        | Except.ok slot =>
            let m3 := { step.2.1 with
              insert_grant_pool := step.2.1.insert_grant_pool + step.2.2.1 }
            let out := PageRecycler.recycle_pages_pool env m3 (clamp_min_slot sync_point slot) rest
            (out.1, out.2.1, step.2.2.2 ++ out.2.2)
        | Except.error e =>
            (Except.error e,
             { step.2.1 with insert_grant_pool := step.2.1.insert_grant_pool + step.2.2.1 },
             step.2.2.2)
      else
        (Except.error Status.cancelled, m, [])

/-- Loop of PageRecycler::recycle_pages when the caller passed a grant: all
pages are inserted under one lock with that grant at the caller depth. -/
def PageRecycler.recycle_pages_grant (env : RecEnv) (m : RecyclerSim) (grant depth : Nat)
    (sync_point : Option Nat) :
    List Nat → Except Status Nat × RecyclerSim × Nat × List RecEvent
  | [] =>
      match sync_point with
      | some sp => (Except.ok sp, m, grant, [])
      | none => (Except.error Status.checkFailed, m, grant, [])
  | pid :: rest =>
      let step := PageRecycler.insert_to_log env m grant pid depth
      match step.1 with
      | Except.ok slot =>
          let out := PageRecycler.recycle_pages_grant env step.2.1 step.2.2.1 depth
            (clamp_min_slot sync_point slot) rest
          (out.1, out.2.1, out.2.2.1, step.2.2.2 ++ out.2.2.2)
      | Except.error e => (Except.error e, step.2.1, step.2.2.1, step.2.2.2)

/-- PageRecycler::recycle_pages: empty input returns the durable upper bound
of the WAL device at once; otherwise the null-grant path requires depth zero
and spends from the insert grant pool, and the caller-grant path requires
depth below kMaxPageRefDepth. -/
def PageRecycler.recycle_pages (env : RecEnv) (m : RecyclerSim) (page_ids : List Nat)
    (grant : Option Nat) (depth : Nat) :
    Except Status Nat × RecyclerSim × Option Nat × List RecEvent :=
  match page_ids with
  | [] => (Except.ok m.durable_upper, m, grant, [])
  | _ :: _ =>
      match grant with
      | none =>
          if depth = 0 then
            let out := PageRecycler.recycle_pages_pool env m none page_ids
            (out.1, out.2.1, none, out.2.2)
          else (Except.error Status.checkFailed, m, none, [])
      | some g =>
          if depth < kMaxPageRefDepth then
            let out := PageRecycler.recycle_pages_grant env m g depth none page_ids
            (out.1, out.2.1, some out.2.2.1, out.2.2.2)
          else (Except.error Status.checkFailed, m, some g, [])

/-- Loop of PageRecycler::prepare_batch: for each page of the batch, stop if
requested, then append a PackedRecyclePagePrepare slot carrying the captured
batch slot, consuming the recycle task grant, clamping sync_upper_bound. -/
def PageRecycler.prepare_batch_loop (env : RecEnv) (m : RecyclerSim) (batch_slot : Nat)
    (sync_upper : Option Nat) :
    List PageToRecycle → Except Status (Option Nat) × RecyclerSim × List RecEvent
  | [] => (Except.ok sync_upper, m, [])
  | item :: rest =>
      if env.stop_requested then (Except.error Status.cancelled, m, [])
      else if env.appendOk ∧ env.prepareSlotSize ≤ m.recycle_task_grant then
        let r : SlotRange := { lower_bound := m.off, upper_bound := m.off + env.prepareSlotSize }
        let m2 :=
          { m with
            off := r.upper_bound
            recycle_task_grant := m.recycle_task_grant - env.prepareSlotSize }
        let out := PageRecycler.prepare_batch_loop env m2 batch_slot
          (clamp_min_slot sync_upper r.upper_bound) rest
        (out.1, out.2.1, RecEvent.appendPrepareSlot r item.page_id batch_slot :: out.2.2)
      else
        (Except.error Status.noSpace, m, [])

/-- PageRecycler::prepare_batch: capture the batch slot offset before the
first append, write one PackedRecyclePagePrepare slot per page, then await a
durable flush of the greatest upper bound.  The final await_flush
dereferences the sync_upper_bound Optional, which is empty when the input was
empty. -/
def PageRecycler.prepare_batch (env : RecEnv) (m : RecyclerSim)
    (to_recycle : List PageToRecycle) :
    Except Status Batch × RecyclerSim × List RecEvent :=
  let batch : Batch := { to_recycle := to_recycle, slot_offset := m.off }
  let out := PageRecycler.prepare_batch_loop env m batch.slot_offset none to_recycle
  match out.1 with
  | Except.error e => (Except.error e, out.2.1, out.2.2)
  | Except.ok none => (Except.error Status.ubEmptyOptional, out.2.1, out.2.2)
  | Except.ok (some u) =>
      if env.flushOk then
        (Except.ok batch, out.2.1, out.2.2 ++ [RecEvent.flushDurable u])
      else (Except.error Status.ioError, out.2.1, out.2.2)

/-- PageRecycler::commit_batch: stop check, then delete_pages keyed by the
batch slot (retried under backoff; the environment fixes its final outcome);
on success append the PackedRecycleBatchCommit slot, flush it durably, and
record its upper bound in latest_batch_upper_bound. -/
def PageRecycler.commit_batch (env : RecEnv) (m : RecyclerSim) (batch : Batch) :
    Except Status Unit × RecyclerSim × List RecEvent :=
  if env.stop_requested then (Except.error Status.recyclerStopped, m, [])
  else
    let tr0 := [RecEvent.deletePages batch.slot_offset
      (batch.to_recycle.map PageToRecycle.page_id)]
    if env.deleteOk then
      if env.stop_requested then (Except.error Status.recyclerStopped, m, tr0)
      else if env.appendOk ∧ env.commitSlotSize ≤ m.recycle_task_grant then
        let r : SlotRange := { lower_bound := m.off, upper_bound := m.off + env.commitSlotSize }
        let m2 :=
          { m with
            off := r.upper_bound
            recycle_task_grant := m.recycle_task_grant - env.commitSlotSize }
        if env.flushOk then
          (Except.ok (),
           { m2 with latest_batch_upper_bound := some r.upper_bound },
           tr0 ++ [RecEvent.appendBatchCommit r batch.slot_offset,
                   RecEvent.flushDurable r.upper_bound])
        else
          (Except.error Status.ioError, m2,
           tr0 ++ [RecEvent.appendBatchCommit r batch.slot_offset])
      else (Except.error Status.noSpace, m, tr0)
    else (Except.error Status.ioError, m, tr0)

/-- Per-batch composition performed by recycle_task_main: the batch returned
by prepare_batch is the one commit_batch later receives. -/
def PageRecycler.process_batch (env : RecEnv) (m : RecyclerSim)
    (items : List PageToRecycle) :
    Except Status Unit × RecyclerSim × List RecEvent :=
  let pre := PageRecycler.prepare_batch env m items
  match pre.1 with
  | Except.ok batch =>
      let com := PageRecycler.commit_batch env pre.2.1 batch
      (com.1, com.2.1, pre.2.2 ++ com.2.2)
  | Except.error e => (Except.error e, pre.2.1, pre.2.2)

/-- PageRecycler::trim_log: compute the trim point from lru_slot and
latest_batch_upper_bound, refresh the info slot if the policy demands it or
the trim point passed the last info slot, assert the trim point does not pass
the info slot, then trim.  Returns the trim point and the final info slot. -/
def PageRecycler.trim_log (env : RecEnv) (m : RecyclerSim) :
    Except Status (Nat × Nat) × RecyclerSim × List RecEvent :=
  let latest_info_slot := m.latest_info_slot
  let lru_slot := m.state.get_lru_slot
  match lru_slot, m.latest_batch_upper_bound with
  | none, none => (Except.error Status.checkFailed, m, [])
  | la, lb =>
      let trim_point :=
        match la, lb with
        | some a, some b => slot_min a b
        | some a, none => a
        | none, some b => b
        | none, none => latest_info_slot
      if env.info_needs_refresh ∨ latest_info_slot < trim_point then
        if env.infoSlotSize ≤ m.recycle_task_grant then
          if env.stop_requested then (Except.error Status.recyclerStopped, m, [])
          else if env.appendOk ∧ env.flushOk then
            let r : SlotRange := { lower_bound := m.off, upper_bound := m.off + env.infoSlotSize }
            let m2 :=
              { m with
                off := r.upper_bound
                recycle_task_grant := m.recycle_task_grant - env.infoSlotSize
                latest_info_slot := r.lower_bound }
            if trim_point ≤ r.lower_bound then
              (Except.ok (trim_point, r.lower_bound), m2,
               [RecEvent.appendInfoSlot r, RecEvent.flushDurable r.upper_bound,
                RecEvent.trimTo trim_point])
            else (Except.error Status.checkFailed, m2,
              [RecEvent.appendInfoSlot r, RecEvent.flushDurable r.upper_bound])
          else (Except.error Status.ioError, m, [])
        else if env.stop_requested then (Except.error Status.recyclerStopped, m, [])
        else (Except.error Status.checkFailed, m, [])
      else
        if trim_point ≤ latest_info_slot then
          (Except.ok (trim_point, latest_info_slot), m, [RecEvent.trimTo trim_point])
        else (Except.error Status.checkFailed, m, [])

/-- Upper bounds of the insert-append events of a recycler trace. -/
def appendUppers : List RecEvent → List Nat
  | [] => []
  | RecEvent.appendInsertSlot r _ :: rest => r.upper_bound :: appendUppers rest
  | _ :: rest => appendUppers rest

/-- Concrete all-success environment for Volume::append evaluations. -/
def volEnvOk : VolAppendEnv :=
  { prepareSize := 3, commitSize := 2, awaitPrev := Except.ok { lower_bound := 0, upper_bound := 7 }
    syncPrevOk := true, appendPrepareOk := true, syncPrepareOk := true
    commitJobOk := true, appendCommitOk := true }

/-- Concrete all-success environment for recycler evaluations. -/
def recEnvOk : RecEnv :=
  { insertSlotSize := 4, prepareSlotSize := 5, commitSlotSize := 6, infoSlotSize := 7
    insert_grant_size := 10, appendOk := true, flushOk := true, deleteOk := true
    stop_requested := false, info_needs_refresh := false }

/-- Concrete recycler snapshot with no pending pages. -/
def simEmpty : RecyclerSim :=
  { off := 20, durable_upper := 15, state := { pending := [] }, insert_grant_pool := 100
    recycle_task_grant := 50, latest_batch_upper_bound := none, latest_info_slot := 12 }

/-- Concrete recycler snapshot with one pending page at depth 2. -/
def simPending : RecyclerSim :=
  { off := 20, durable_upper := 15
    state := { pending := [{ page_id := 1, slot_offset := 5, depth := 2 }] }
    insert_grant_pool := 100, recycle_task_grant := 50
    latest_batch_upper_bound := some 9, latest_info_slot := 12 }

/-! ## Theorems -/

/-- C8 counterexample: on a trim lock covering offsets 0 to 10, trim at 5
succeeds, and a subsequent trim at the smaller offset 3 also returns ok,
refuting the claim that no trim at a smaller offset succeeds afterwards. -/
theorem C8_trim_smaller_offset_succeeds :
    (Volume.trim { lower_bound := 0, upper_bound := 10 } 5).1 = Status.ok ∧
    (Volume.trim (Volume.trim { lower_bound := 0, upper_bound := 10 } 5).2 3).1 = Status.ok ∧
    (3 : Nat) < 5 := by
  decide

/-- C8 amended: trim is monotone in effect: a successful trim(x) raises the
trim lower bound to at least x, and a subsequent trim(y) with y at most x
returns ok as a no-op, leaving the lower bound unchanged (the trim lower
bound never moves backwards). -/
theorem C8_trim_monotone (lock : TrimLock) (x y : Nat) (h : y ≤ x) :
    x ≤ (Volume.trim lock x).2.lower_bound ∧
    lock.lower_bound ≤ (Volume.trim lock x).2.lower_bound ∧
    (Volume.trim (Volume.trim lock x).2 y).1 = Status.ok ∧
    (Volume.trim (Volume.trim lock x).2 y).2.lower_bound =
      (Volume.trim lock x).2.lower_bound := by
  refine ⟨?_, ?_, rfl, ?_⟩ <;> · simp only [Volume.trim, slot_max]
                                 omega

/-- C8 witness: the amended trim monotonicity at lock range 0 to 10 with
first trim at 5 and second at 3. -/
theorem C8_trim_monotone_witness :
    5 ≤ (Volume.trim { lower_bound := 0, upper_bound := 10 } 5).2.lower_bound ∧
    (0 : Nat) ≤ (Volume.trim { lower_bound := 0, upper_bound := 10 } 5).2.lower_bound ∧
    (Volume.trim (Volume.trim { lower_bound := 0, upper_bound := 10 } 5).2 3).1 = Status.ok ∧
    (Volume.trim (Volume.trim { lower_bound := 0, upper_bound := 10 } 5).2 3).2.lower_bound =
      (Volume.trim { lower_bound := 0, upper_bound := 10 } 5).2.lower_bound :=
  C8_trim_monotone { lower_bound := 0, upper_bound := 10 } 5 3 (by decide)

/-- C9: a PackedLogDeviceConfig serializes to exactly 64 bytes, the fixed
packed config slot size, and block_size() is 4 KiB times two to the
pages_per_block_log2 power. -/
theorem C9_packed_log_device_config_layout (c : PackedLogDeviceConfig) :
    c.toBytes.length = PackedConfigSlot.kSize ∧
    PackedConfigSlot.kSize = 64 ∧
    c.block_size = 4 * kKiB * 2 ^ c.pages_per_block_log2 ∧
    c.block_size = 4096 * 2 ^ c.pages_per_block_log2 := by
  refine ⟨?_, rfl, ?_, ?_⟩ <;>
    simp [PackedLogDeviceConfig.toBytes, leBytes, leBytesInt, PackedConfigSlot.kSize,
      PackedLogDeviceConfig.block_size, PackedLogDeviceConfig.pages_per_block, kKiB,
      Nat.shiftLeft_eq]

/-- C4: inserting a page id already pending at equal or smaller depth is an
idempotent no-op: insert_to_log returns the current slot offset, leaves the
recycler unchanged, consumes no bytes of the supplied grant, and appends no
slot (the event trace is empty), so a repeated recycle call for the same page
produces no new WAL record. -/
theorem C4_insert_to_log_idempotent (env : RecEnv) (m : RecyclerSim)
    (grant page_id depth : Nat) (q : PageToRecycle)
    (hq : m.state.pending.find? (fun r => r.page_id == page_id) = some q)
    (hd : depth ≤ q.depth) :
    PageRecycler.insert_to_log env m grant page_id depth =
      (Except.ok m.off, m, grant, []) := by
  unfold PageRecycler.insert_to_log RecyclerState.insert
  simp [hq, hd]

/-- C4 witness: page 1 pending at depth 2; a repeat insert at depth 1 is a
no-op. -/
theorem C4_insert_to_log_idempotent_witness :
    PageRecycler.insert_to_log recEnvOk simPending 40 1 1 =
      (Except.ok simPending.off, simPending, 40, []) :=
  C4_insert_to_log_idempotent recEnvOk simPending 40 1 1
    { page_id := 1, slot_offset := 5, depth := 2 } (by decide) (by decide)

/-- Every PackedRecyclePagePrepare slot written by the prepare loop carries
the batch slot the loop was given. -/
theorem prepare_batch_loop_batch_slot (env : RecEnv) :
    ∀ (l : List PageToRecycle) (m : RecyclerSim) (bs : Nat) (sp : Option Nat)
      (r : SlotRange) (pid b2 : Nat),
      RecEvent.appendPrepareSlot r pid b2 ∈
        (PageRecycler.prepare_batch_loop env m bs sp l).2.2 → b2 = bs := by
  intro l
  induction l with
  | nil =>
      intro m bs sp r pid b2 h
      simp [PageRecycler.prepare_batch_loop] at h
  | cons item rest ih =>
      intro m bs sp r pid b2 h
      unfold PageRecycler.prepare_batch_loop at h
      by_cases hstop : env.stop_requested = true
      · simp [hstop] at h
      · by_cases hc : env.appendOk = true ∧ env.prepareSlotSize ≤ m.recycle_task_grant
        · simp [hstop, hc] at h
          rcases h with ⟨h1, h2, h3⟩ | h
          · omega
          · exact ih _ bs _ r pid b2 h
        · simp [hstop, hc] at h

/-- The prepare loop run with a defined sync upper bound never returns an
empty one. -/
theorem prepare_batch_loop_some (env : RecEnv) :
    ∀ (l : List PageToRecycle) (m : RecyclerSim) (bs v : Nat),
      (PageRecycler.prepare_batch_loop env m bs (some v) l).1 ≠ Except.ok none := by
  intro l
  induction l with
  | nil =>
      intro m bs v
      simp [PageRecycler.prepare_batch_loop]
  | cons item rest ih =>
      intro m bs v
      unfold PageRecycler.prepare_batch_loop
      by_cases hstop : env.stop_requested = true
      · simp [hstop]
      · by_cases hc : env.appendOk ∧ env.prepareSlotSize ≤ m.recycle_task_grant
        · simpa [hstop, hc, clamp_min_slot] using ih _ bs _
        · simp [hstop, hc]

/-- The prepare loop run on a non-empty batch never returns an empty sync
upper bound. -/
theorem prepare_batch_loop_nonempty (env : RecEnv) (item : PageToRecycle)
    (rest : List PageToRecycle) (m : RecyclerSim) (bs : Nat) :
    (PageRecycler.prepare_batch_loop env m bs none (item :: rest)).1 ≠ Except.ok none := by
  unfold PageRecycler.prepare_batch_loop
  by_cases hstop : env.stop_requested = true
  · simp [hstop]
  · by_cases hc : env.appendOk ∧ env.prepareSlotSize ≤ m.recycle_task_grant
    · simpa [hstop, hc, clamp_min_slot] using prepare_batch_loop_some env rest _ bs _
    · simp [hstop, hc]

/-- The prepare loop itself never reports the empty-Optional dereference:
that status arises only at the final await_flush. -/
theorem prepare_batch_loop_no_ub (env : RecEnv) :
    ∀ (l : List PageToRecycle) (m : RecyclerSim) (bs : Nat) (sp : Option Nat),
      (PageRecycler.prepare_batch_loop env m bs sp l).1 ≠
        Except.error Status.ubEmptyOptional := by
  intro l
  induction l with
  | nil =>
      intro m bs sp
      simp [PageRecycler.prepare_batch_loop]
  | cons item rest ih =>
      intro m bs sp
      unfold PageRecycler.prepare_batch_loop
      by_cases hstop : env.stop_requested = true
      · simp [hstop]
      · by_cases hc : env.appendOk ∧ env.prepareSlotSize ≤ m.recycle_task_grant
        · simpa [hstop, hc] using ih _ bs _
        · simp [hstop, hc]

/-- The greatest depth of a non-empty pending list is attained. -/
theorem maxDepthOf_mem :
    ∀ (l : List PageToRecycle), l ≠ [] → ∃ q ∈ l, q.depth = maxDepthOf l := by
  intro l
  induction l with
  | nil => intro h; exact absurd rfl h
  | cons q rest ih =>
      intro _
      cases rest with
      | nil => exact ⟨q, by simp, by simp [maxDepthOf]⟩
      | cons b t =>
          obtain ⟨r, hr, hrd⟩ := ih (by simp)
          have hM : maxDepthOf (q :: b :: t) = max q.depth (maxDepthOf (b :: t)) := rfl
          rcases Nat.le_total q.depth (maxDepthOf (b :: t)) with hle | hge
          · refine ⟨r, List.mem_cons_of_mem _ hr, ?_⟩
            rw [hM, Nat.max_eq_right hle]
            exact hrd
          · refine ⟨q, List.mem_cons_self _ _, ?_⟩
            rw [hM, Nat.max_eq_left hge]

/-- collect_batch on a state with pending pages and a positive batch size
returns at least one page. -/
theorem collect_batch_ne_nil (s : RecyclerState) (n : Nat) (hs : s.pending ≠ [])
    (hn : 0 < n) : (s.collect_batch n).1 ≠ [] := by
  obtain ⟨q, hq, hqd⟩ := maxDepthOf_mem s.pending hs
  unfold RecyclerState.collect_batch
  obtain ⟨a, t, hat⟩ := List.exists_cons_of_ne_nil hs
  rw [hat]
  simp only []
  have hmem : q ∈ s.pending.filter (fun r => r.depth == maxDepthOf s.pending) :=
    List.mem_filter.mpr ⟨hq, by simp [hqd]⟩
  obtain ⟨b, u, hbu⟩ := List.exists_cons_of_ne_nil (List.ne_nil_of_mem hmem)
  rw [hat] at hbu
  rw [hbu]
  cases n with
  | zero => exact absurd hn (by simp)
  | succ k => simp

/-- C3: prepare_batch captures the batch identity as the slot offset of the
writer before the first append, and every PackedRecyclePagePrepare slot of
the batch carries that captured offset as batch_slot. -/
theorem C3_prepare_batch_slot_identity (env : RecEnv) (m : RecyclerSim)
    (to_recycle : List PageToRecycle) (batch : Batch)
    (h : (PageRecycler.prepare_batch env m to_recycle).1 = Except.ok batch) :
    batch.slot_offset = m.off ∧
    ∀ (r : SlotRange) (pid bs : Nat),
      RecEvent.appendPrepareSlot r pid bs ∈
        (PageRecycler.prepare_batch env m to_recycle).2.2 → bs = m.off := by
  have hbs := prepare_batch_loop_batch_slot env to_recycle m m.off none
  simp only [PageRecycler.prepare_batch] at h ⊢
  constructor
  · split at h
    · simp at h
    · simp at h
    · split at h
      · simp only [Except.ok.injEq] at h
        rw [← h]
      · simp at h
  · intro r pid bs hmem
    split at hmem
    · exact hbs r pid bs hmem
    · exact hbs r pid bs hmem
    · split at hmem
      · simp only [List.mem_append, List.mem_singleton] at hmem
        rcases hmem with hmem | hmem
        · exact hbs r pid bs hmem
        · simp at hmem
      · exact hbs r pid bs hmem

/-- C3 witness: a two-page batch prepared from offset 20 gets batch slot 20
on every prepare slot. -/
theorem C3_prepare_batch_slot_identity_witness :
    ({ to_recycle := [{ page_id := 1, slot_offset := 3, depth := 0 },
                      { page_id := 2, slot_offset := 4, depth := 0 }],
       slot_offset := 20 } : Batch).slot_offset = simEmpty.off ∧
    ∀ (r : SlotRange) (pid bs : Nat),
      RecEvent.appendPrepareSlot r pid bs ∈
        (PageRecycler.prepare_batch recEnvOk simEmpty
          [{ page_id := 1, slot_offset := 3, depth := 0 },
           { page_id := 2, slot_offset := 4, depth := 0 }]).2.2 → bs = simEmpty.off :=
  C3_prepare_batch_slot_identity recEnvOk simEmpty
    [{ page_id := 1, slot_offset := 3, depth := 0 },
     { page_id := 2, slot_offset := 4, depth := 0 }]
    { to_recycle := [{ page_id := 1, slot_offset := 3, depth := 0 },
                     { page_id := 2, slot_offset := 4, depth := 0 }],
      slot_offset := 20 } (by rfl)

/-- C10: prepare_batch on an empty batch reaches the dereference of the
never-set sync_upper_bound Optional (and appends nothing); collect_batch
under the observed non-zero pending count returns a non-empty batch, and on
any non-empty batch the empty-Optional dereference is unreachable. -/
theorem C10_prepare_batch_nonempty_precondition (env : RecEnv) (m : RecyclerSim)
    (s : RecyclerState) (n : Nat) (hs : s.pending ≠ []) (hn : 0 < n) :
    (PageRecycler.prepare_batch env m []).1 = Except.error Status.ubEmptyOptional ∧
    (PageRecycler.prepare_batch env m []).2.2 = [] ∧
    (s.collect_batch n).1 ≠ [] ∧
    ∀ (l : List PageToRecycle), l ≠ [] →
      (PageRecycler.prepare_batch env m l).1 ≠ Except.error Status.ubEmptyOptional := by
  refine ⟨by simp [PageRecycler.prepare_batch, PageRecycler.prepare_batch_loop],
    by simp [PageRecycler.prepare_batch, PageRecycler.prepare_batch_loop],
    collect_batch_ne_nil s n hs hn, ?_⟩
  intro l hl
  obtain ⟨item, rest, hir⟩ := List.exists_cons_of_ne_nil hl
  subst hir
  unfold PageRecycler.prepare_batch
  rcases hout : (PageRecycler.prepare_batch_loop env m m.off none (item :: rest)).1 with e | so
  · have := prepare_batch_loop_no_ub env (item :: rest) m m.off none
    rw [hout] at this
    simp only [hout]
    simpa using this
  · cases so with
    | none =>
        have := prepare_batch_loop_nonempty env item rest m m.off
        rw [hout] at this
        exact absurd rfl this
    | some u =>
        by_cases hf : env.flushOk = true <;> simp [hout, hf]

/-- C10 witness: at batch size 3 with one pending page, collect_batch is
non-empty and prepare_batch on a singleton batch avoids the dereference. -/
theorem C10_prepare_batch_nonempty_precondition_witness :
    (PageRecycler.prepare_batch recEnvOk simEmpty []).1 =
      Except.error Status.ubEmptyOptional ∧
    (PageRecycler.prepare_batch recEnvOk simEmpty []).2.2 = [] ∧
    (RecyclerState.collect_batch
      { pending := [{ page_id := 1, slot_offset := 5, depth := 2 }] } 3).1 ≠ [] ∧
    ∀ (l : List PageToRecycle), l ≠ [] →
      (PageRecycler.prepare_batch recEnvOk simEmpty l).1 ≠
        Except.error Status.ubEmptyOptional :=
  C10_prepare_batch_nonempty_precondition recEnvOk simEmpty
    { pending := [{ page_id := 1, slot_offset := 5, depth := 2 }] } 3
    (by decide) (by decide)

/-- Full-success shape of appendJobPhase1: when the result is ok, the trace
extends the phase 0 trace with the prepare append, the optional sequencer
resolution, the durable sync of the prepare upper bound, the job commit and
the commit-slot append, and both slots were paid from the one grant. -/
theorem appendJobPhase1_ok (env : VolAppendEnv) (hasSeq : Bool) (tr0 : List VolEvent)
    (grant off : Nat) (r : SlotRange)
    (h : (Volume.appendJobPhase1 env hasSeq tr0 grant off).result = Except.ok r) :
    (Volume.appendJobPhase1 env hasSeq tr0 grant off).trace =
      tr0 ++ [VolEvent.appendPrepare { lower_bound := off, upper_bound := off + env.prepareSize }] ++
      (if hasSeq then
        [VolEvent.seqSetCurrent { lower_bound := off, upper_bound := off + env.prepareSize }]
       else []) ++
      [VolEvent.syncDurable (off + env.prepareSize), VolEvent.commitJob off,
       VolEvent.appendCommit
         { lower_bound := off + env.prepareSize,
           upper_bound := off + env.prepareSize + env.commitSize } off] ∧
    r = { lower_bound := off, upper_bound := off + env.prepareSize + env.commitSize } ∧
    (Volume.appendJobPhase1 env hasSeq tr0 grant off).grantAfter =
      grant - env.prepareSize - env.commitSize := by
  by_cases h1 : env.appendPrepareOk = true ∧ env.prepareSize ≤ grant
  · by_cases h2 : env.syncPrepareOk = true
    · by_cases h3 : env.commitJobOk = true
      · by_cases h4 : env.appendCommitOk = true ∧ env.commitSize ≤ grant - env.prepareSize
        · simp only [Volume.appendJobPhase1, h1, h2, h3, h4, and_self, if_true] at h ⊢
          simp only [Except.ok.injEq] at h
          refine ⟨by simp, ?_, ?_⟩
          · exact h.symm
          · trivial
        · exfalso
          simp [Volume.appendJobPhase1, h1, h2, h3, h4] at h
      · exfalso
        simp [Volume.appendJobPhase1, h1, h2, h3] at h
    · exfalso
      simp [Volume.appendJobPhase1, h1, h2] at h
  · exfalso
    simp [Volume.appendJobPhase1, h1] at h

/-- C1: when Volume::append(job, grant, sequencer) returns a range, its trace
appends the PrepareJob slot and durably syncs it before the PageCache commit
runs, then appends a PackedCommitJob slot carrying the prepare lower bound,
immediately after the prepare slot and paid from the same grant, and the
returned range spans the prepare lower bound to the commit upper bound. -/
theorem C1_volume_append_two_phase (env : VolAppendEnv) (hasSeq : Bool) (grant off : Nat)
    (r : SlotRange) (h : (Volume.appendJob env hasSeq grant off).result = Except.ok r) :
    ∃ p c : SlotRange,
      List.Sublist
        [VolEvent.appendPrepare p, VolEvent.syncDurable p.upper_bound,
         VolEvent.commitJob p.lower_bound, VolEvent.appendCommit c p.lower_bound]
        (Volume.appendJob env hasSeq grant off).trace ∧
      r = { lower_bound := p.lower_bound, upper_bound := c.upper_bound } ∧
      c.lower_bound = p.upper_bound ∧
      (Volume.appendJob env hasSeq grant off).grantAfter =
        grant - env.prepareSize - env.commitSize := by
  refine ⟨{ lower_bound := off, upper_bound := off + env.prepareSize },
    { lower_bound := off + env.prepareSize,
      upper_bound := off + env.prepareSize + env.commitSize }, ?_⟩
  rcases hap : env.awaitPrev with e | prev
  · cases hasSeq
    · have heq : Volume.appendJob env false grant off =
          Volume.appendJobPhase1 env false [] grant off := by
        simp [Volume.appendJob, hap]
      rw [heq] at h ⊢
      obtain ⟨ht, hr, hg⟩ := appendJobPhase1_ok env false [] grant off r h
      rw [ht, hr, hg]
      exact ⟨List.Sublist.refl _, rfl, rfl, rfl⟩
    · simp [Volume.appendJob, hap] at h
  · cases hasSeq
    · have heq : Volume.appendJob env false grant off =
          Volume.appendJobPhase1 env false [] grant off := by
        simp [Volume.appendJob, hap]
      rw [heq] at h ⊢
      obtain ⟨ht, hr, hg⟩ := appendJobPhase1_ok env false [] grant off r h
      rw [ht, hr, hg]
      exact ⟨List.Sublist.refl _, rfl, rfl, rfl⟩
    · by_cases hs : env.syncPrevOk = true
      · have heq : Volume.appendJob env true grant off =
            Volume.appendJobPhase1 env true [VolEvent.syncSpeculative prev.upper_bound]
              grant off := by
          simp [Volume.appendJob, hap, hs]
        rw [heq] at h ⊢
        obtain ⟨ht, hr, hg⟩ :=
          appendJobPhase1_ok env true [VolEvent.syncSpeculative prev.upper_bound] grant off r h
        rw [ht, hr, hg]
        refine ⟨?_, rfl, rfl, rfl⟩
        exact List.Sublist.cons _ (List.Sublist.cons₂ _ (List.Sublist.cons _
          (List.Sublist.refl _)))
      · simp [Volume.appendJob, hap, hs] at h

/-- C1 witness: the all-success environment at grant 100 and offset 7
returns the range from 7 to 12. -/
theorem C1_volume_append_two_phase_witness :
    ∃ p c : SlotRange,
      List.Sublist
        [VolEvent.appendPrepare p, VolEvent.syncDurable p.upper_bound,
         VolEvent.commitJob p.lower_bound, VolEvent.appendCommit c p.lower_bound]
        (Volume.appendJob volEnvOk true 100 7).trace ∧
      ({ lower_bound := 7, upper_bound := 12 } : SlotRange) =
        { lower_bound := p.lower_bound, upper_bound := c.upper_bound } ∧
      c.lower_bound = p.upper_bound ∧
      (Volume.appendJob volEnvOk true 100 7).grantAfter =
        100 - volEnvOk.prepareSize - volEnvOk.commitSize :=
  C1_volume_append_two_phase volEnvOk true 100 7 { lower_bound := 7, upper_bound := 12 } (by rfl)

/-- C7: with a sequencer supplied, every return path of Volume::append
resolves it exactly once: set_current with the prepare slot range whenever
the prepare append succeeded, and set_error whenever no prepare slot was
appended (any phase 0 or phase 1 failure). -/
theorem C7_sequencer_resolved (env : VolAppendEnv) (grant off : Nat) :
    (Volume.appendJob env true grant off).trace.countP isSeqResolution = 1 ∧
    (∀ p : SlotRange,
      VolEvent.appendPrepare p ∈ (Volume.appendJob env true grant off).trace →
      VolEvent.seqSetCurrent p ∈ (Volume.appendJob env true grant off).trace) ∧
    ((∀ p : SlotRange,
      VolEvent.appendPrepare p ∉ (Volume.appendJob env true grant off).trace) →
      VolEvent.seqSetError ∈ (Volume.appendJob env true grant off).trace) := by
  rcases hap : env.awaitPrev with e | prev
  · simp [Volume.appendJob, hap, isSeqResolution]
  · by_cases hs : env.syncPrevOk = true
    · simp only [Volume.appendJob, hap, hs, if_true]
      by_cases h1 : env.appendPrepareOk = true ∧ env.prepareSize ≤ grant
      · by_cases h2 : env.syncPrepareOk = true
        · by_cases h3 : env.commitJobOk = true
          · by_cases h4 : env.appendCommitOk = true ∧ env.commitSize ≤ grant - env.prepareSize
            · simp [Volume.appendJobPhase1, h1, h2, h3, h4, isSeqResolution]
            · simp [Volume.appendJobPhase1, h1, h2, h3, h4, isSeqResolution]
          · simp [Volume.appendJobPhase1, h1, h2, h3, isSeqResolution]
        · simp [Volume.appendJobPhase1, h1, h2, isSeqResolution]
      · simp [Volume.appendJobPhase1, h1, isSeqResolution]
    · simp [Volume.appendJob, hap, hs, isSeqResolution]

/-- C6: trim_log computes the trim point as the slot minimum of lru_slot and
latest_batch_upper_bound when both are defined and as the defined one
otherwise, and after the optional info refresh the trim point never passes
the latest info slot. -/
theorem C6_trim_log_trim_point (env : RecEnv) (m : RecyclerSim)
    (hdef : m.state.get_lru_slot ≠ none ∨ m.latest_batch_upper_bound ≠ none)
    (hlru : ∀ v, m.state.get_lru_slot = some v → v ≤ m.off)
    (hbatch : ∀ v, m.latest_batch_upper_bound = some v → v ≤ m.off)
    (hstop : env.stop_requested = false) (happ : env.appendOk = true)
    (hflush : env.flushOk = true) (hgrant : env.infoSlotSize ≤ m.recycle_task_grant) :
    ∃ tp info2,
      (PageRecycler.trim_log env m).1 = Except.ok (tp, info2) ∧
      tp ≤ info2 ∧
      ((∃ a b, m.state.get_lru_slot = some a ∧ m.latest_batch_upper_bound = some b ∧
          tp = slot_min a b) ∨
       (∃ a, m.state.get_lru_slot = some a ∧ m.latest_batch_upper_bound = none ∧ tp = a) ∨
       (∃ b, m.state.get_lru_slot = none ∧ m.latest_batch_upper_bound = some b ∧ tp = b)) := by
  rcases hla : m.state.get_lru_slot with _ | a
  · rcases hlb : m.latest_batch_upper_bound with _ | b
    · rcases hdef with hd | hd
      · exact absurd hla hd
      · exact absurd hlb hd
    · have hble : b ≤ m.off := hbatch b hlb
      refine ⟨b, ?_⟩
      by_cases hr : env.info_needs_refresh = true ∨ m.latest_info_slot < b
      · refine ⟨m.off, ?_, hble, Or.inr (Or.inr ⟨b, rfl, rfl, rfl⟩)⟩
        simp [PageRecycler.trim_log, hla, hlb, hr, hgrant, hstop, happ, hflush, hble]
      · have hble2 : b ≤ m.latest_info_slot := by
          rcases Nat.lt_or_ge m.latest_info_slot b with hlt | hge
          · exact absurd (Or.inr hlt) hr
          · exact hge
        refine ⟨m.latest_info_slot, ?_, hble2, Or.inr (Or.inr ⟨b, rfl, rfl, rfl⟩)⟩
        simp [PageRecycler.trim_log, hla, hlb, hr, hble2]
  · have hale : a ≤ m.off := hlru a hla
    rcases hlb : m.latest_batch_upper_bound with _ | b
    · refine ⟨a, ?_⟩
      by_cases hr : env.info_needs_refresh = true ∨ m.latest_info_slot < a
      · refine ⟨m.off, ?_, hale, Or.inr (Or.inl ⟨a, rfl, rfl, rfl⟩)⟩
        simp [PageRecycler.trim_log, hla, hlb, hr, hgrant, hstop, happ, hflush, hale]
      · have hale2 : a ≤ m.latest_info_slot := by
          rcases Nat.lt_or_ge m.latest_info_slot a with hlt | hge
          · exact absurd (Or.inr hlt) hr
          · exact hge
        refine ⟨m.latest_info_slot, ?_, hale2, Or.inr (Or.inl ⟨a, rfl, rfl, rfl⟩)⟩
        simp [PageRecycler.trim_log, hla, hlb, hr, hale2]
    · have hble : b ≤ m.off := hbatch b hlb
      have htp : slot_min a b ≤ m.off := le_trans (Nat.min_le_left a b) hale
      refine ⟨slot_min a b, ?_⟩
      by_cases hr : env.info_needs_refresh = true ∨ m.latest_info_slot < slot_min a b
      · refine ⟨m.off, ?_, htp, Or.inl ⟨a, b, rfl, rfl, rfl⟩⟩
        simp [PageRecycler.trim_log, hla, hlb, hr, hgrant, hstop, happ, hflush, htp]
      · have htp2 : slot_min a b ≤ m.latest_info_slot := by
          rcases Nat.lt_or_ge m.latest_info_slot (slot_min a b) with hlt | hge
          · exact absurd (Or.inr hlt) hr
          · exact hge
        refine ⟨m.latest_info_slot, ?_, htp2, Or.inl ⟨a, b, rfl, rfl, rfl⟩⟩
        simp [PageRecycler.trim_log, hla, hlb, hr, htp2]

/-- C6 witness: with lru slot 5, last batch upper bound 9 and info slot 12,
the trim point is 5 and stays at most the info slot. -/
theorem C6_trim_log_trim_point_witness :
    ∃ tp info2,
      (PageRecycler.trim_log recEnvOk simPending).1 = Except.ok (tp, info2) ∧
      tp ≤ info2 ∧
      ((∃ a b, simPending.state.get_lru_slot = some a ∧
          simPending.latest_batch_upper_bound = some b ∧ tp = slot_min a b) ∨
       (∃ a, simPending.state.get_lru_slot = some a ∧
          simPending.latest_batch_upper_bound = none ∧ tp = a) ∨
       (∃ b, simPending.state.get_lru_slot = none ∧
          simPending.latest_batch_upper_bound = some b ∧ tp = b)) :=
  C6_trim_log_trim_point recEnvOk simPending
    (Or.inl (by decide))
    (fun v hv => by
      have h5 : simPending.state.get_lru_slot = some 5 := rfl
      rw [h5] at hv
      rw [(Option.some.inj hv).symm]
      decide)
    (fun v hv => by
      have h9 : simPending.latest_batch_upper_bound = some 9 := rfl
      rw [h9] at hv
      rw [(Option.some.inj hv).symm]
      decide)
    rfl rfl rfl (by decide)

/-- Full-success run of the prepare loop: with no stop request, appends
enabled and enough grant, the loop writes one prepare slot per page, ends at
the offset advanced by all slot sizes, and every event is a prepare append
with upper bound at most the final offset. -/
theorem prepare_batch_loop_success (env : RecEnv) (hstop : env.stop_requested = false)
    (happ : env.appendOk = true) :
    ∀ (l : List PageToRecycle) (m : RecyclerSim) (bs : Nat) (sp : Option Nat),
      l.length * env.prepareSlotSize ≤ m.recycle_task_grant →
      (∀ v, sp = some v → v ≤ m.off) →
      ∃ mf tr,
        PageRecycler.prepare_batch_loop env m bs sp l =
          (Except.ok (if l = [] then sp else some mf.off), mf, tr) ∧
        mf.off = m.off + l.length * env.prepareSlotSize ∧
        mf.recycle_task_grant = m.recycle_task_grant - l.length * env.prepareSlotSize ∧
        mf.state = m.state ∧
        mf.latest_batch_upper_bound = m.latest_batch_upper_bound ∧
        (∀ e ∈ tr, ∃ r2 pid, e = RecEvent.appendPrepareSlot r2 pid bs ∧
          r2.upper_bound ≤ mf.off) := by
  intro l
  induction l with
  | nil =>
      intro m bs sp hgr hsp
      refine ⟨m, [], ?_, by simp, by simp, rfl, rfl, by simp⟩
      simp [PageRecycler.prepare_batch_loop]
  | cons item rest ih =>
      intro m bs sp hgr hsp
      have hlen : (item :: rest).length * env.prepareSlotSize =
          rest.length * env.prepareSlotSize + env.prepareSlotSize := by
        rw [List.length_cons, Nat.succ_mul]
      have hsize : env.prepareSlotSize ≤ m.recycle_task_grant := by
        rw [hlen] at hgr
        omega
      have hgr2 : rest.length * env.prepareSlotSize ≤
          m.recycle_task_grant - env.prepareSlotSize := by
        rw [hlen] at hgr
        omega
      have hsp2 : ∀ v, clamp_min_slot sp (m.off + env.prepareSlotSize) = some v →
          v ≤ m.off + env.prepareSlotSize := by
        intro v hv
        cases sp with
        | none =>
            simp [clamp_min_slot] at hv
            omega
        | some w =>
            have hw : w ≤ m.off := hsp w rfl
            simp [clamp_min_slot, slot_max] at hv
            omega
      obtain ⟨mf, tr, heq, hoff, hgrant2, hstate, hlbu, htr⟩ :=
        ih { m with
             off := m.off + env.prepareSlotSize
             recycle_task_grant := m.recycle_task_grant - env.prepareSlotSize }
          bs (clamp_min_slot sp (m.off + env.prepareSlotSize)) hgr2 hsp2
      dsimp only at hoff hgrant2
      have hsp2some : clamp_min_slot sp (m.off + env.prepareSlotSize) =
          some (m.off + env.prepareSlotSize) := by
        cases sp with
        | none => simp [clamp_min_slot]
        | some w =>
            have hw : w ≤ m.off := hsp w rfl
            simp [clamp_min_slot, slot_max]
            omega
      refine ⟨mf,
        RecEvent.appendPrepareSlot
          { lower_bound := m.off, upper_bound := m.off + env.prepareSlotSize }
          item.page_id bs :: tr, ?_, ?_, ?_, hstate, hlbu, ?_⟩
      · simp only [PageRecycler.prepare_batch_loop, hstop, happ, hsize,
          Bool.false_eq_true, if_false, true_and, if_pos, if_true]
        rw [heq]
        have hres : (if rest = [] then clamp_min_slot sp (m.off + env.prepareSlotSize)
            else some mf.off) = some mf.off := by
          cases hrest : rest with
          | nil =>
              rw [hsp2some]
              have : mf.off = m.off + env.prepareSlotSize := by
                rw [hoff, hrest]
                simp
              rw [this]
              simp
          | cons b t => simp
        rw [hres]
        simp
      · rw [hoff, hlen]
        omega
      · rw [hgrant2, hlen]
        omega
      · intro e he
        rw [List.mem_cons] at he
        rcases he with rfl | he
        · refine ⟨{ lower_bound := m.off, upper_bound := m.off + env.prepareSlotSize },
            item.page_id, rfl, ?_⟩
          dsimp only
          rw [hoff]
          omega
        · exact htr e he

/-- C2: within one recycler batch, every prepare slot is durably flushed (the
flush covers the greatest prepare upper bound) before delete_pages runs; the
PackedRecycleBatchCommit slot is appended only after delete_pages succeeds,
is then flushed durably, and its upper bound is stored in
latest_batch_upper_bound. -/
theorem C2_batch_prepare_flush_before_delete (env : RecEnv) (m : RecyclerSim)
    (items : List PageToRecycle) (hne : items ≠ [])
    (hstop : env.stop_requested = false) (happ : env.appendOk = true)
    (hflush : env.flushOk = true)
    (hgrant : items.length * env.prepareSlotSize + env.commitSlotSize ≤
      m.recycle_task_grant) :
    ∃ (tr1 : List RecEvent) (u : Nat) (c : SlotRange),
      (∀ e ∈ tr1, ∃ r2 pid, e = RecEvent.appendPrepareSlot r2 pid m.off ∧
        r2.upper_bound ≤ u) ∧
      c.lower_bound = u ∧
      (env.deleteOk = true →
        (PageRecycler.process_batch env m items).1 = Except.ok () ∧
        (PageRecycler.process_batch env m items).2.2 =
          tr1 ++ [RecEvent.flushDurable u,
            RecEvent.deletePages m.off (items.map PageToRecycle.page_id),
            RecEvent.appendBatchCommit c m.off,
            RecEvent.flushDurable c.upper_bound] ∧
        (PageRecycler.process_batch env m items).2.1.latest_batch_upper_bound =
          some c.upper_bound) ∧
      (env.deleteOk = false →
        (PageRecycler.process_batch env m items).1 = Except.error Status.ioError ∧
        (PageRecycler.process_batch env m items).2.2 =
          tr1 ++ [RecEvent.flushDurable u,
            RecEvent.deletePages m.off (items.map PageToRecycle.page_id)]) := by
  obtain ⟨mf, tr, heq, hoff, hgrant2, hstate, hlbu, htr⟩ :=
    prepare_batch_loop_success env hstop happ items m m.off none
      (by omega) (by intro v hv; simp at hv)
  have hcs : env.commitSlotSize ≤ mf.recycle_task_grant := by
    rw [hgrant2]
    omega
  have hpb : PageRecycler.prepare_batch env m items =
      (Except.ok { to_recycle := items, slot_offset := m.off }, mf,
       tr ++ [RecEvent.flushDurable mf.off]) := by
    unfold PageRecycler.prepare_batch
    simp only []
    rw [heq]
    simp [hne, hflush]
  refine ⟨tr, mf.off, { lower_bound := mf.off, upper_bound := mf.off + env.commitSlotSize },
    htr, rfl, ?_, ?_⟩
  · intro hdel
    have hproc : PageRecycler.process_batch env m items =
        (Except.ok (),
         { mf with
           off := mf.off + env.commitSlotSize
           recycle_task_grant := mf.recycle_task_grant - env.commitSlotSize
           latest_batch_upper_bound := some (mf.off + env.commitSlotSize) },
         (tr ++ [RecEvent.flushDurable mf.off]) ++
           [RecEvent.deletePages m.off (items.map PageToRecycle.page_id),
            RecEvent.appendBatchCommit
              { lower_bound := mf.off, upper_bound := mf.off + env.commitSlotSize } m.off,
            RecEvent.flushDurable (mf.off + env.commitSlotSize)]) := by
      unfold PageRecycler.process_batch
      rw [hpb]
      simp only []
      unfold PageRecycler.commit_batch
      simp [hstop, hdel, happ, hcs, hflush]
    rw [hproc]
    refine ⟨rfl, by simp, rfl⟩
  · intro hdel
    have hproc : PageRecycler.process_batch env m items =
        (Except.error Status.ioError, mf,
         (tr ++ [RecEvent.flushDurable mf.off]) ++
           [RecEvent.deletePages m.off (items.map PageToRecycle.page_id)]) := by
      unfold PageRecycler.process_batch
      rw [hpb]
      simp only []
      unfold PageRecycler.commit_batch
      simp [hstop, hdel]
    rw [hproc]
    exact ⟨rfl, by simp⟩

/-- C2 witness: a two-page batch from offset 20 with grant 50: prepares are
flushed at 30 before the delete, the commit slot spans 30 to 36 and is
recorded. -/
theorem C2_batch_prepare_flush_before_delete_witness :
    ∃ (tr1 : List RecEvent) (u : Nat) (c : SlotRange),
      (∀ e ∈ tr1, ∃ r2 pid, e = RecEvent.appendPrepareSlot r2 pid simEmpty.off ∧
        r2.upper_bound ≤ u) ∧
      c.lower_bound = u ∧
      (recEnvOk.deleteOk = true →
        (PageRecycler.process_batch recEnvOk simEmpty
          [{ page_id := 1, slot_offset := 3, depth := 0 },
           { page_id := 2, slot_offset := 4, depth := 0 }]).1 = Except.ok () ∧
        (PageRecycler.process_batch recEnvOk simEmpty
          [{ page_id := 1, slot_offset := 3, depth := 0 },
           { page_id := 2, slot_offset := 4, depth := 0 }]).2.2 =
          tr1 ++ [RecEvent.flushDurable u,
            RecEvent.deletePages simEmpty.off
              ([{ page_id := 1, slot_offset := 3, depth := 0 },
                { page_id := 2, slot_offset := 4, depth := 0 }].map PageToRecycle.page_id),
            RecEvent.appendBatchCommit c simEmpty.off,
            RecEvent.flushDurable c.upper_bound] ∧
        (PageRecycler.process_batch recEnvOk simEmpty
          [{ page_id := 1, slot_offset := 3, depth := 0 },
           { page_id := 2, slot_offset := 4, depth := 0 }]).2.1.latest_batch_upper_bound =
          some c.upper_bound) ∧
      (recEnvOk.deleteOk = false →
        (PageRecycler.process_batch recEnvOk simEmpty
          [{ page_id := 1, slot_offset := 3, depth := 0 },
           { page_id := 2, slot_offset := 4, depth := 0 }]).1 =
            Except.error Status.ioError ∧
        (PageRecycler.process_batch recEnvOk simEmpty
          [{ page_id := 1, slot_offset := 3, depth := 0 },
           { page_id := 2, slot_offset := 4, depth := 0 }]).2.2 =
          tr1 ++ [RecEvent.flushDurable u,
            RecEvent.deletePages simEmpty.off
              ([{ page_id := 1, slot_offset := 3, depth := 0 },
                { page_id := 2, slot_offset := 4, depth := 0 }].map
                  PageToRecycle.page_id)]) :=
  C2_batch_prepare_flush_before_delete recEnvOk simEmpty
    [{ page_id := 1, slot_offset := 3, depth := 0 },
     { page_id := 2, slot_offset := 4, depth := 0 }]
    (by decide) rfl rfl rfl (by decide)

/-- insert_to_log on a page id not yet pending appends exactly one slot at
the current offset and returns its upper bound. -/
theorem insert_to_log_fresh (env : RecEnv) (m : RecyclerSim) (grant pid depth : Nat)
    (happ : env.appendOk = true) (hsz : env.insertSlotSize ≤ grant)
    (hfresh : m.state.pending.find? (fun r => r.page_id == pid) = none) :
    PageRecycler.insert_to_log env m grant pid depth =
      (Except.ok (m.off + env.insertSlotSize),
       { m with
         off := m.off + env.insertSlotSize
         state := { pending := m.state.pending ++
           [{ page_id := pid, slot_offset := m.off, depth := depth }] } },
       grant - env.insertSlotSize,
       [RecEvent.appendInsertSlot
          { lower_bound := m.off, upper_bound := m.off + env.insertSlotSize }
          { page_id := pid, slot_offset := m.off, depth := depth }]) := by
  unfold PageRecycler.insert_to_log RecyclerState.insert
  simp [hfresh, appendItems, happ, hsz, slot_max, Nat.max_eq_right, Nat.le_add_right]

/-- Full-success run of the null-grant recycle_pages loop over fresh,
distinct page ids: each page costs one pool spend and one append; the
returned offset is the greatest append upper bound of the trace. -/
theorem recycle_pages_pool_success (env : RecEnv) (happ : env.appendOk = true)
    (hig : env.insertSlotSize ≤ env.insert_grant_size) :
    ∀ (l : List Nat) (m : RecyclerSim) (sp : Option Nat),
      l.Nodup →
      (∀ pid ∈ l, m.state.pending.find? (fun r => r.page_id == pid) = none) →
      l.length * env.insert_grant_size ≤ m.insert_grant_pool →
      (∀ v, sp = some v → v ≤ m.off) →
      (sp = none → l ≠ []) →
      ∃ mf tr,
        PageRecycler.recycle_pages_pool env m sp l =
          (Except.ok (if l = [] then sp.getD 0 else mf.off), mf, tr) ∧
        mf.off = m.off + l.length * env.insertSlotSize ∧
        (l ≠ [] → mf.off ∈ appendUppers tr) ∧
        (∀ u ∈ appendUppers tr, u ≤ mf.off) := by
  intro l
  induction l with
  | nil =>
      intro m sp hnd hfr hgr hsp hspn
      cases sp with
      | none => exact absurd rfl (fun h => (hspn h) rfl)
      | some v =>
          refine ⟨m, [], ?_, by simp, by simp, by simp [appendUppers]⟩
          simp [PageRecycler.recycle_pages_pool]
  | cons pid rest ih =>
      intro m sp hnd hfr hgr hsp hspn
      rw [List.length_cons, Nat.succ_mul] at hgr
      have hpl : env.insert_grant_size ≤ m.insert_grant_pool := by omega
      have hnotin : pid ∉ rest := (List.nodup_cons.mp hnd).1
      have hstep := insert_to_log_fresh env
        { m with insert_grant_pool := m.insert_grant_pool - env.insert_grant_size }
        env.insert_grant_size pid 0 happ hig (hfr pid (List.mem_cons_self _ _))
      dsimp only at hstep
      have hfresh2 : ∀ pid2 ∈ rest,
          (m.state.pending ++
            [({ page_id := pid, slot_offset := m.off, depth := 0 } : PageToRecycle)]).find?
            (fun r => r.page_id == pid2) = none := by
        intro pid2 hp2
        rw [List.find?_append, hfr pid2 (List.mem_cons_of_mem _ hp2)]
        have hne2 : (pid == pid2) = false :=
          beq_eq_false_iff_ne.mpr (fun h => hnotin (by rw [h]; exact hp2))
        simp [List.find?_cons, hne2]
      have hsp2 : ∀ v, clamp_min_slot sp (m.off + env.insertSlotSize) = some v →
          v ≤ m.off + env.insertSlotSize := by
        intro v hv
        cases sp with
        | none =>
            simp [clamp_min_slot] at hv
            omega
        | some w =>
            have hw : w ≤ m.off := hsp w rfl
            simp [clamp_min_slot, slot_max] at hv
            omega
      have hsp2some : clamp_min_slot sp (m.off + env.insertSlotSize) =
          some (m.off + env.insertSlotSize) := by
        cases sp with
        | none => simp [clamp_min_slot]
        | some w =>
            have hw : w ≤ m.off := hsp w rfl
            simp [clamp_min_slot, slot_max]
            omega
      obtain ⟨mf, tr2, heq, hoff, hmem, hub⟩ :=
        ih { m with
             off := m.off + env.insertSlotSize
             insert_grant_pool :=
               m.insert_grant_pool - env.insert_grant_size +
                 (env.insert_grant_size - env.insertSlotSize)
             state := { pending := m.state.pending ++
               [{ page_id := pid, slot_offset := m.off, depth := 0 }] } }
          (clamp_min_slot sp (m.off + env.insertSlotSize))
          (List.nodup_cons.mp hnd).2 hfresh2 (by dsimp only; omega) hsp2
          (by
            rw [hsp2some]
            intro hcontra
            exact absurd hcontra (by simp))
      dsimp only at hoff
      refine ⟨mf,
        RecEvent.appendInsertSlot
          { lower_bound := m.off, upper_bound := m.off + env.insertSlotSize }
          { page_id := pid, slot_offset := m.off, depth := 0 } :: tr2, ?_, ?_, ?_, ?_⟩
      · simp only [PageRecycler.recycle_pages_pool, hpl, if_true, hstep]
        rw [heq]
        have hres : (if rest = [] then
            (clamp_min_slot sp (m.off + env.insertSlotSize)).getD 0 else mf.off) = mf.off := by
          cases hrest : rest with
          | nil =>
              rw [hsp2some]
              have : mf.off = m.off + env.insertSlotSize := by
                rw [hoff, hrest]
                simp
              rw [this]
              simp
          | cons b t => simp
        rw [hres]
        simp
      · rw [hoff, List.length_cons, Nat.succ_mul]
        omega
      · intro _
        cases hrest : rest with
        | nil =>
            have hmf : mf.off = m.off + env.insertSlotSize := by
              rw [hoff, hrest]
              simp
            rw [hmf]
            exact List.mem_cons_self _ _
        | cons b t =>
            exact List.mem_cons_of_mem _ (hmem (by rw [hrest]; simp))
      · intro u hu
        rcases List.mem_cons.mp hu with rfl | hu
        · dsimp only
          omega
        · exact hub u hu

/-- Full-success run of the caller-grant recycle_pages loop over fresh,
distinct page ids at a fixed depth. -/
theorem recycle_pages_grant_success (env : RecEnv) (happ : env.appendOk = true) :
    ∀ (l : List Nat) (m : RecyclerSim) (g depth : Nat) (sp : Option Nat),
      l.Nodup →
      (∀ pid ∈ l, m.state.pending.find? (fun r => r.page_id == pid) = none) →
      l.length * env.insertSlotSize ≤ g →
      (∀ v, sp = some v → v ≤ m.off) →
      (sp = none → l ≠ []) →
      ∃ mf gf tr,
        PageRecycler.recycle_pages_grant env m g depth sp l =
          (Except.ok (if l = [] then sp.getD 0 else mf.off), mf, gf, tr) ∧
        mf.off = m.off + l.length * env.insertSlotSize ∧
        (l ≠ [] → mf.off ∈ appendUppers tr) ∧
        (∀ u ∈ appendUppers tr, u ≤ mf.off) := by
  intro l
  induction l with
  | nil =>
      intro m g depth sp hnd hfr hgr hsp hspn
      cases sp with
      | none => exact absurd rfl (fun h => (hspn h) rfl)
      | some v =>
          refine ⟨m, g, [], ?_, by simp, by simp, by simp [appendUppers]⟩
          simp [PageRecycler.recycle_pages_grant]
  | cons pid rest ih =>
      intro m g depth sp hnd hfr hgr hsp hspn
      rw [List.length_cons, Nat.succ_mul] at hgr
      have hsz : env.insertSlotSize ≤ g := by omega
      have hnotin : pid ∉ rest := (List.nodup_cons.mp hnd).1
      have hstep := insert_to_log_fresh env m g pid depth happ hsz
        (hfr pid (List.mem_cons_self _ _))
      have hfresh2 : ∀ pid2 ∈ rest,
          (m.state.pending ++
            [({ page_id := pid, slot_offset := m.off, depth := depth } : PageToRecycle)]).find?
            (fun r => r.page_id == pid2) = none := by
        intro pid2 hp2
        rw [List.find?_append, hfr pid2 (List.mem_cons_of_mem _ hp2)]
        have hne2 : (pid == pid2) = false :=
          beq_eq_false_iff_ne.mpr (fun h => hnotin (by rw [h]; exact hp2))
        simp [List.find?_cons, hne2]
      have hsp2 : ∀ v, clamp_min_slot sp (m.off + env.insertSlotSize) = some v →
          v ≤ m.off + env.insertSlotSize := by
        intro v hv
        cases sp with
        | none =>
            simp [clamp_min_slot] at hv
            omega
        | some w =>
            have hw : w ≤ m.off := hsp w rfl
            simp [clamp_min_slot, slot_max] at hv
            omega
      have hsp2some : clamp_min_slot sp (m.off + env.insertSlotSize) =
          some (m.off + env.insertSlotSize) := by
        cases sp with
        | none => simp [clamp_min_slot]
        | some w =>
            have hw : w ≤ m.off := hsp w rfl
            simp [clamp_min_slot, slot_max]
            omega
      obtain ⟨mf, gf, tr2, heq, hoff, hmem, hub⟩ :=
        ih { m with
             off := m.off + env.insertSlotSize
             state := { pending := m.state.pending ++
               [{ page_id := pid, slot_offset := m.off, depth := depth }] } }
          (g - env.insertSlotSize) depth
          (clamp_min_slot sp (m.off + env.insertSlotSize))
          (List.nodup_cons.mp hnd).2 hfresh2 (by omega) hsp2
          (by
            rw [hsp2some]
            intro hcontra
            exact absurd hcontra (by simp))
      dsimp only at hoff
      refine ⟨mf, gf,
        RecEvent.appendInsertSlot
          { lower_bound := m.off, upper_bound := m.off + env.insertSlotSize }
          { page_id := pid, slot_offset := m.off, depth := depth } :: tr2, ?_, ?_, ?_, ?_⟩
      · simp only [PageRecycler.recycle_pages_grant, hstep]
        rw [heq]
        have hres : (if rest = [] then
            (clamp_min_slot sp (m.off + env.insertSlotSize)).getD 0 else mf.off) = mf.off := by
          cases hrest : rest with
          | nil =>
              rw [hsp2some]
              have : mf.off = m.off + env.insertSlotSize := by
                rw [hoff, hrest]
                simp
              rw [this]
              simp
          | cons b t => simp
        rw [hres]
        simp
      · rw [hoff, List.length_cons, Nat.succ_mul]
        omega
      · intro _
        cases hrest : rest with
        | nil =>
            have hmf : mf.off = m.off + env.insertSlotSize := by
              rw [hoff, hrest]
              simp
            rw [hmf]
            exact List.mem_cons_self _ _
        | cons b t =>
            exact List.mem_cons_of_mem _ (hmem (by rw [hrest]; simp))
      · intro u hu
        rcases List.mem_cons.mp hu with rfl | hu
        · dsimp only
          omega
        · exact hub u hu

/-- C5: recycle_pages on an empty input returns the durable upper bound of
the WAL device without touching state or grants; on a non-empty input of
fresh distinct pages it returns the greatest upper bound produced by its
appends. -/
theorem C5_recycle_pages_returns (env : RecEnv) (m : RecyclerSim) (page_ids : List Nat)
    (grant : Option Nat) (depth : Nat)
    (happ : env.appendOk = true)
    (hig : env.insertSlotSize ≤ env.insert_grant_size)
    (hnodup : page_ids.Nodup)
    (hfresh : ∀ pid ∈ page_ids, m.state.pending.find? (fun r => r.page_id == pid) = none)
    (hpool : page_ids.length * env.insert_grant_size ≤ m.insert_grant_pool)
    (hg : ∀ g, grant = some g → page_ids.length * env.insertSlotSize ≤ g)
    (hdepth0 : grant = none → depth = 0)
    (hdepthmax : grant ≠ none → depth < kMaxPageRefDepth) :
    (page_ids = [] →
      PageRecycler.recycle_pages env m page_ids grant depth =
        (Except.ok m.durable_upper, m, grant, [])) ∧
    (page_ids ≠ [] →
      ∃ u, (PageRecycler.recycle_pages env m page_ids grant depth).1 = Except.ok u ∧
        u ∈ appendUppers (PageRecycler.recycle_pages env m page_ids grant depth).2.2.2 ∧
        ∀ v ∈ appendUppers (PageRecycler.recycle_pages env m page_ids grant depth).2.2.2,
          v ≤ u) := by
  constructor
  · intro he
    subst he
    rfl
  · intro hne
    obtain ⟨pid, rest, hpr⟩ := List.exists_cons_of_ne_nil hne
    cases grant with
    | none =>
        have hd0 : depth = 0 := hdepth0 rfl
        subst hd0
        obtain ⟨mf, tr, heq, hoff, hmem, hub⟩ :=
          recycle_pages_pool_success env happ hig page_ids m none hnodup hfresh hpool
            (by intro v hv; simp at hv) (fun _ => hne)
        subst hpr
        refine ⟨mf.off, ?_, ?_, ?_⟩
        · simp only [PageRecycler.recycle_pages, if_pos rfl]
          rw [heq]
          simp
        · simp only [PageRecycler.recycle_pages, if_pos rfl]
          rw [heq]
          simpa using hmem (by simp)
        · simp only [PageRecycler.recycle_pages, if_pos rfl]
          rw [heq]
          simpa using hub
    | some g =>
        have hdm : depth < kMaxPageRefDepth := hdepthmax (by simp)
        obtain ⟨mf, gf, tr, heq, hoff, hmem, hub⟩ :=
          recycle_pages_grant_success env happ page_ids m g depth none hnodup hfresh
            (hg g rfl) (by intro v hv; simp at hv) (fun _ => hne)
        subst hpr
        refine ⟨mf.off, ?_, ?_, ?_⟩
        · simp only [PageRecycler.recycle_pages, if_pos hdm]
          rw [heq]
          simp
        · simp only [PageRecycler.recycle_pages, if_pos hdm]
          rw [heq]
          simpa using hmem (by simp)
        · simp only [PageRecycler.recycle_pages, if_pos hdm]
          rw [heq]
          simpa using hub

/-- C5 witness: two fresh pages through the pool path from offset 20 return
upper bound 28, the greatest append upper bound; the empty input returns the
durable bound 15 untouched. -/
theorem C5_recycle_pages_returns_witness :
    (([1, 2] : List Nat) = [] →
      PageRecycler.recycle_pages recEnvOk simEmpty [1, 2] none 0 =
        (Except.ok simEmpty.durable_upper, simEmpty, none, [])) ∧
    (([1, 2] : List Nat) ≠ [] →
      ∃ u, (PageRecycler.recycle_pages recEnvOk simEmpty [1, 2] none 0).1 = Except.ok u ∧
        u ∈ appendUppers (PageRecycler.recycle_pages recEnvOk simEmpty [1, 2] none 0).2.2.2 ∧
        ∀ v ∈ appendUppers (PageRecycler.recycle_pages recEnvOk simEmpty [1, 2] none 0).2.2.2,
          v ≤ u) :=
  C5_recycle_pages_returns recEnvOk simEmpty [1, 2] none 0 rfl (by decide) (by decide)
    (by decide) (by decide) (fun g h => nomatch h) (fun _ => rfl)
    (fun h => absurd rfl h)

end Llfs
